import Mathlib

/-!
Verification of the CSV schema-reconciliation engine of the
screen-capture extractor repository.

The repository's write path lives in `src/screen_capture_extractor.py`
(`append_row_to_csv`, `sync_header_and_append`, `sync_header_and_append_many`,
`remove_last_row_from_csv`, and the flattening loop in `App._run_save_worker` /
the value normalisation in `App._run_ollama_extraction`); the read path is
`load_dataframe` in `src/view_captures.py`.

Modelling conventions:
* A Python dict row (`Dict[str, str]`) is an ordered association list with
  distinct keys (`Row`); `row.get(k, "")` is `getStr`.
* The on-disk CSV file is `CsvFile`: the header line (list of field names)
  plus one list of cell strings per data row, exactly as the `csv` module
  writes them.  "No file at the path" is `none : Option CsvFile`.
* `csv.DictReader` exposes a physical row `cells` under header `h` as the
  partial map `k ↦ (h.zip cells).lookup k`; the code always reads a value
  with `r.get(k, "")` (or writes a `None` value, which the `csv` writer
  renders as the empty string), so the net effect is `getCell`.
* Python set iteration order (`list({...})` in `sync_header_and_append_many`)
  is hash-seed dependent; it is modelled by an explicit order parameter
  `so : List String → List String` applied to the first-seen list of the
  set's elements, constrained only by `orderOk` (the output is some
  duplicate-free enumeration of the same elements).
-/

/-- A Python `Dict[str, str]` row: ordered association list, distinct keys. -/
abbrev Row : Type := List (String × String)

/-- `list(row.keys())`. -/
def rowKeys (r : Row) : List String := r.map Prod.fst

/-- First binding of key `k` in an association list (Python dict access). -/
def lookupS (r : Row) (k : String) : Option String :=
  match r with
  | [] => none
  | (k0, v) :: tl => if k0 = k then some v else lookupS tl k

/-- `row.get(k, "")`. -/
def getStr (r : Row) (k : String) : String := (lookupS r k).getD ""

/-- On-disk CSV table: header line plus the cell lists of the data rows. -/
structure CsvFile where
  header : List String
  rows : List (List String)
deriving DecidableEq

/-- Every file this store writes has a duplicate-free header and one cell
per header field in every row. -/
def wellFormed (f : CsvFile) : Prop :=
  f.header.Nodup ∧ ∀ r ∈ f.rows, r.length = f.header.length

instance (f : CsvFile) : Decidable (wellFormed f) := by
  unfold wellFormed
  infer_instance

/-- `wellFormed` lifted to an optional file (`none` = no file on disk). -/
def wellFormedOpt : Option CsvFile → Prop
  | none => True
  | some f => wellFormed f

instance (st : Option CsvFile) : Decidable (wellFormedOpt st) := by
  cases st <;> (unfold wellFormedOpt; infer_instance)

/-- Which kind of file operation a store call performed: `created` a fresh
file, `appended` to an existing one (mode `"a"`), `rewritten` it in place
(mode `"w"` on an existing file), or touched nothing (`noop`). -/
inductive FileOp where
  | created
  | appended
  | rewritten
  | noop
deriving DecidableEq

/-- The loop `for k in ks: if k not in fields: fields.append(k)`. -/
def addNew (fields : List String) (ks : List String) : List String :=
  ks.foldl (fun acc k => if k ∈ acc then acc else acc ++ [k]) fields

/-- `list(dict.fromkeys(l))`: first-seen deduplication of a list. -/
def dedupFS (l : List String) : List String := addNew [] l

/-- A set-iteration order is admissible if it enumerates exactly the
elements of its argument, each once (what `list(s)` yields for a Python
set `s`, for some hash seed). -/
def orderOk (so : List String → List String) : Prop :=
  ∀ l : List String, (so l).Nodup ∧ ∀ x : String, x ∈ so l ↔ x ∈ l

/-- Value of field `k` of a physical row `cells` read under header `h`
(DictReader + `r.get(k, "")`, with `None`-for-missing written back as `""`). -/
def getCell (h : List String) (cells : List String) (k : String) : String :=
  (((h.zip cells).lookup k).getD "")

/-- Re-render a physical row read under header `old` against the field list
`fields`: `{k: r.get(k, "") for k in fields}` written out by `DictWriter`. -/
def renderRow (old : List String) (cells : List String) (fields : List String) :
    List String :=
  fields.map (getCell old cells)

/-- Render an incoming dict row against a field list:
`{k: row.get(k, "") for k in fields}` written out by `DictWriter`. -/
def renderDict (r : Row) (fields : List String) : List String :=
  fields.map (getStr r)

/-- Concatenated key lists of a list of incoming rows. -/
def keysConcat (rows : List Row) : List String :=
  rows.foldr (fun r acc => rowKeys r ++ acc) []

/-- All keys of a list of incoming rows, in first-seen order (the element
list of the Python set `{k for r in rows for k in r.keys()}`). -/
def allKeys (rows : List Row) : List String :=
  dedupFS (keysConcat rows)

/-- The reconciled field list of the existing-file branch of
`sync_header_and_append_many` (src/screen_capture_extractor.py:119-122):
`new_fields = list(old_fields) + [k for k in new_fields_set if k not in
old_fields]`, where `new_fields_set = set(old_fields) ∪ keys` and `so` is
the set's iteration order. -/
def manyFields (so : List String → List String) (old : List String)
    (rows : List Row) : List String :=
  old ++ (so (dedupFS (old ++ keysConcat rows))).filter
      (fun k => decide (k ∉ old))

/-- `append_row_to_csv` (src/screen_capture_extractor.py:35-43): open in
mode `"a"`, header written only when the file did not exist, fieldnames
are the row's own keys. -/
def append_row_to_csv (row : Row) (st : Option CsvFile) :
    Option CsvFile × FileOp :=
  match st with
  | none =>
      (some ⟨rowKeys row, [renderDict row (rowKeys row)]⟩, FileOp.created)
  | some f =>
      (some ⟨f.header, f.rows ++ [renderDict row (rowKeys row)]⟩, FileOp.appended)

/-- `sync_header_and_append` (src/screen_capture_extractor.py:64-97). -/
def sync_header_and_append (row : Row) (st : Option CsvFile) :
    Option CsvFile × FileOp :=
  match st with
  | none => append_row_to_csv row none
  | some f =>
      let old := f.header
      let nf := addNew old (rowKeys row)
      if nf = old then
        (some ⟨old, f.rows ++ [renderDict row nf]⟩, FileOp.appended)
      else
        (some ⟨nf, f.rows.map (fun c => renderRow old c nf) ++
                [renderDict row nf]⟩, FileOp.rewritten)

/-- `sync_header_and_append_many` (src/screen_capture_extractor.py:100-130).
`so` is the iteration order of the Python sets built on lines 106 and
119-122; on the existing-file path the code always opens mode `"w"` and
rewrites the whole file. -/
def sync_header_and_append_many (so : List String → List String)
    (rows : List Row) (st : Option CsvFile) : Option CsvFile × FileOp :=
  match st with
  | none =>
      if rows.isEmpty then (none, FileOp.noop)
      else
        let fns := so (allKeys rows)
        (some ⟨fns, rows.map (fun r => renderDict r fns)⟩, FileOp.created)
  | some f =>
      let old := f.header
      let nf := manyFields so old rows
      (some ⟨nf, f.rows.map (fun c => renderRow old c nf) ++
          rows.map (fun r => renderDict r nf)⟩, FileOp.rewritten)

/-- `remove_last_row_from_csv` (src/screen_capture_extractor.py:46-61):
the boolean is the Python return value. -/
def remove_last_row_from_csv (st : Option CsvFile) :
    Option CsvFile × Bool :=
  match st with
  | none => (none, false)
  | some f =>
      if f.rows.isEmpty then (some f, false)
      else
        (some ⟨f.header,
            (f.rows.dropLast).map (fun c => renderRow f.header c f.header)⟩,
          true)

/-- `load_dataframe` (src/view_captures.py:62-66): raises
`FileNotFoundError` when the file is absent; otherwise
`pd.read_csv(path, dtype=str, keep_default_na=False)` exposes exactly the
header and the stored cell strings (empty cells stay `""`). -/
def load_dataframe (st : Option CsvFile) : Except String CsvFile :=
  match st with
  | none => Except.error "FileNotFoundError"
  | some f => Except.ok f

/-- One store call: single-row append, multi-row append (with its set
iteration order), or undo. -/
inductive StoreOp where
  | one (row : Row)
  | many (so : List String → List String) (rows : List Row)
  | rmLast

/-- The file left on disk by a store call. -/
def applyStoreOp : StoreOp → Option CsvFile → Option CsvFile
  | StoreOp.one r, st => (sync_header_and_append r st).1
  | StoreOp.many so rows, st => (sync_header_and_append_many so rows st).1
  | StoreOp.rmLast, st => (remove_last_row_from_csv st).1

/-- Header of an optional file (`[]` when no file exists, matching
`reader.fieldnames or []`). -/
def headerOf : Option CsvFile → List String
  | none => []
  | some f => f.header

/-!  Write-trace model for the atomicity claim.

Every store call performs its file effects through one `open(...)` whose
mode is either `"a"` (append: the old lines stay, new lines are written
one `writerow` at a time) or `"w"` (in-place rewrite: the file is
truncated on open, then the new lines are written one at a time).  An
I/O failure can interrupt the call after any prefix of these primitive
actions; the file a later reader observes is the result of that prefix.
-/

/-- One primitive file action: the truncation performed by opening an
existing path in mode `"w"`, or one written line (its cells). -/
inductive WriteAct where
  | truncate
  | putLine (cells : List String)

/-- Replay a sequence of primitive actions on a file (as a list of lines,
each line a list of cells). -/
def runActs (acts : List WriteAct) (file : List (List String)) :
    List (List String) :=
  acts.foldl
    (fun st a =>
      match a with
      | WriteAct.truncate => []
      | WriteAct.putLine c => st ++ [c])
    file

/-- The lines of an optional file: header line then data lines
(no file = no lines). -/
def linesOf : Option CsvFile → List (List String)
  | none => []
  | some f => f.header :: f.rows

/-- Action trace of an `open(path, "w")` write of the given lines. -/
def wOpen (ls : List (List String)) : List WriteAct :=
  WriteAct.truncate :: ls.map WriteAct.putLine

/-- Action trace of an `open(path, "a")` write of the given lines. -/
def aOpen (ls : List (List String)) : List WriteAct :=
  ls.map WriteAct.putLine

/-- Primitive actions performed by `sync_header_and_append`, branch by
branch (src/screen_capture_extractor.py:64-97; the missing-file branch is
`append_row_to_csv`'s mode-`"a"` write of header then row). -/
def writeActsOne (row : Row) (st : Option CsvFile) : List WriteAct :=
  match st with
  | none => aOpen [rowKeys row, renderDict row (rowKeys row)]
  | some f =>
      let old := f.header
      let nf := addNew old (rowKeys row)
      if nf = old then aOpen [renderDict row nf]
      else
        wOpen (nf :: (f.rows.map (fun c => renderRow old c nf) ++
            [renderDict row nf]))

/-- Primitive actions performed by `sync_header_and_append_many`
(src/screen_capture_extractor.py:100-130). -/
def writeActsMany (so : List String → List String) (rows : List Row)
    (st : Option CsvFile) : List WriteAct :=
  match st with
  | none =>
      if rows.isEmpty then []
      else
        let fns := so (allKeys rows)
        wOpen (fns :: rows.map (fun r => renderDict r fns))
  | some f =>
      let old := f.header
      let nf := manyFields so old rows
      wOpen (nf :: (f.rows.map (fun c => renderRow old c nf) ++
          rows.map (fun r => renderDict r nf)))

/-- Primitive actions performed by `remove_last_row_from_csv`
(src/screen_capture_extractor.py:46-61). -/
def writeActsRm (st : Option CsvFile) : List WriteAct :=
  match st with
  | none => []
  | some f =>
      if f.rows.isEmpty then []
      else
        wOpen (f.header ::
            (f.rows.dropLast).map (fun c => renderRow f.header c f.header))

/-!  The record flattener and its two value-stringification functions
(`App._run_save_worker`, src/screen_capture_extractor.py:390-407, and
`App._run_ollama_extraction`, lines 451-458).

JSON-serialisable Python values are embedded as the mutual inductive
`JVal` / `JArr` / `JObj` (a list and a dict are spelled out as their own
cons-lists so that all recursions below are structural).  String escaping
inside `repr` / `json.dumps` is not modelled: the embedded strings are
assumed free of quotes, backslashes and control characters, which holds
for every value these claims mention. -/

mutual
inductive JVal where
  | jnull
  | jbool (b : Bool)
  | jnum (n : Int)
  | jstr (s : String)
  | jarr (elems : JArr)
  | jobj (fields : JObj)
inductive JArr where
  | nil
  | cons (hd : JVal) (tl : JArr)
inductive JObj where
  | nil
  | cons (key : String) (val : JVal) (tl : JObj)
end

mutual
/-- Python `repr(v)` on the embedded fragment (`str` of a container falls
back to `repr`; nested strings are single-quoted). -/
def pyRepr : JVal → String
  | JVal.jnull => "None"
  | JVal.jbool true => "True"
  | JVal.jbool false => "False"
  | JVal.jnum n => toString n
  | JVal.jstr s => "\x27" ++ s ++ "\x27"
  | JVal.jarr xs => "[" ++ arrRepr xs ++ "]"
  | JVal.jobj fs => "\x7b" ++ objRepr fs ++ "\x7d"

/-- Comma-joined `repr`s of the elements of a Python list. -/
def arrRepr : JArr → String
  | JArr.nil => ""
  | JArr.cons x JArr.nil => pyRepr x
  | JArr.cons x (JArr.cons y tl) => pyRepr x ++ ", " ++ arrRepr (JArr.cons y tl)

/-- Comma-joined `repr(k): repr(v)` entries of a Python dict. -/
def objRepr : JObj → String
  | JObj.nil => ""
  | JObj.cons k v JObj.nil => "\x27" ++ k ++ "\x27: " ++ pyRepr v
  | JObj.cons k v (JObj.cons k2 v2 tl) =>
      "\x27" ++ k ++ "\x27: " ++ pyRepr v ++ ", " ++ objRepr (JObj.cons k2 v2 tl)
end

/-- Python `str(v)`: identity on strings, `repr` otherwise. -/
def pyStr : JVal → String
  | JVal.jstr s => s
  | v => pyRepr v

mutual
/-- `json.dumps(v, ensure_ascii=False)` with the default separators. -/
def jsonDumps : JVal → String
  | JVal.jnull => "null"
  | JVal.jbool true => "true"
  | JVal.jbool false => "false"
  | JVal.jnum n => toString n
  | JVal.jstr s => "\"" ++ s ++ "\""
  | JVal.jarr xs => "[" ++ arrDumps xs ++ "]"
  | JVal.jobj fs => "\x7b" ++ objDumps fs ++ "\x7d"

/-- Comma-joined `json.dumps` of the elements of a list. -/
def arrDumps : JArr → String
  | JArr.nil => ""
  | JArr.cons x JArr.nil => jsonDumps x
  | JArr.cons x (JArr.cons y tl) => jsonDumps x ++ ", " ++ arrDumps (JArr.cons y tl)

/-- Comma-joined `"k": json.dumps(v)` entries of a dict. -/
def objDumps : JObj → String
  | JObj.nil => ""
  | JObj.cons k v JObj.nil => "\"" ++ k ++ "\": " ++ jsonDumps v
  | JObj.cons k v (JObj.cons k2 v2 tl) =>
      "\"" ++ k ++ "\": " ++ jsonDumps v ++ ", " ++ objDumps (JObj.cons k2 v2 tl)
end

/-- The flattener's value stringification, `"" if v is None else str(v)`
(src/screen_capture_extractor.py:398, 400, 406). -/
def strFlat : JVal → String
  | JVal.jnull => ""
  | v => pyStr v

/-- The normaliser's value stringification
(src/screen_capture_extractor.py:454-457):
`json.dumps(v, ensure_ascii=False)` for a dict or list,
`"" if v is None else str(v)` otherwise. -/
def strNorm : JVal → String
  | JVal.jarr xs => jsonDumps (JVal.jarr xs)
  | JVal.jobj fs => jsonDumps (JVal.jobj fs)
  | JVal.jnull => ""
  | v => pyStr v

/-- Modelled from the spec (section 4.1): `stringify(v)`: null/absence →
empty string; mapping or sequence → its canonical JSON text; otherwise →
its textual representation.  Written to compare the two stringifications
of the source against the spec's words. -/
def specStringify : JVal → String
  | JVal.jnull => ""
  | JVal.jarr xs => jsonDumps (JVal.jarr xs)
  | JVal.jobj fs => jsonDumps (JVal.jobj fs)
  | v => pyStr v

/-- Python dict item assignment `d[k] = v`: overwrite in place when the
key exists, else append the binding. -/
def dinsert (d : Row) (k v : String) : Row :=
  match lookupS d k with
  | some _ => d.map (fun p => if p.1 = k then (k, v) else p)
  | none => d ++ [(k, v)]

/-- The loop `for k, v in o.items(): flat[pre + k] = "" if v is None else
str(v)` (src/screen_capture_extractor.py:397-400). -/
def addObjEntries (pre : String) (o : JObj) (d : Row) : Row :=
  match o with
  | JObj.nil => d
  | JObj.cons k v tl => addObjEntries pre tl (dinsert d (pre ++ k) (strFlat v))

/-- One flattened row per transaction: summary fields first, prefixed with
`summary_`, then the transaction's own fields
(src/screen_capture_extractor.py:394-401). -/
def rowOfTx (summary : JObj) (tx : JObj) : Row :=
  addObjEntries "" tx (addObjEntries "summary_" summary [])

/-- `flat_rows` of the structured branch. -/
def flatRowsOf (summary : JObj) (txs : List JObj) : List Row :=
  txs.map (rowOfTx summary)

/-- The rows the structured branch of `App._run_save_worker` appends: one
row per transaction when there are any, otherwise the single
summary-prefixed row (src/screen_capture_extractor.py:394-407). -/
def flatten (summary : JObj) (txs : List JObj) : List Row :=
  let fr := flatRowsOf summary txs
  if fr.isEmpty then [addObjEntries "summary_" summary []] else fr

/-!  Helper lemmas about the header-union loop. -/

theorem addNew_cons (fields : List String) (k : String) (ks : List String) :
    addNew fields (k :: ks) =
      addNew (if k ∈ fields then fields else fields ++ [k]) ks := rfl

theorem addNew_nil (fields : List String) : addNew fields [] = fields := rfl

theorem addNew_prefix (fields ks : List String) : fields <+: addNew fields ks := by
  induction ks generalizing fields with
  | nil => exact List.prefix_rfl
  | cons k ks ih =>
      rw [addNew_cons]
      by_cases h : k ∈ fields
      · simpa [h] using ih fields
      · refine List.IsPrefix.trans ?_ (by simpa [h] using ih (fields ++ [k]))
        exact List.prefix_append fields [k]

theorem mem_addNew (fields ks : List String) (x : String) :
    x ∈ addNew fields ks ↔ x ∈ fields ∨ x ∈ ks := by
  induction ks generalizing fields with
  | nil => simp [addNew_nil]
  | cons k ks ih =>
      rw [addNew_cons]
      by_cases h : k ∈ fields
      · simp only [h, if_true, ih]
        constructor
        · rintro (hx | hx)
          · exact Or.inl hx
          · exact Or.inr (List.mem_cons_of_mem _ hx)
        · rintro (hx | hx)
          · exact Or.inl hx
          · rcases List.mem_cons.1 hx with rfl | hx
            · exact Or.inl h
            · exact Or.inr hx
      · simp only [h, if_false, ih, List.mem_append, List.mem_singleton,
          List.mem_cons]
        tauto

theorem addNew_nodup (fields ks : List String) (hf : fields.Nodup) :
    (addNew fields ks).Nodup := by
  induction ks generalizing fields with
  | nil => exact hf
  | cons k ks ih =>
      rw [addNew_cons]
      by_cases h : k ∈ fields
      · rw [if_pos h]
        exact ih fields hf
      · rw [if_neg h]
        refine ih (fields ++ [k]) ?_
        simp [List.nodup_append, hf, h]

theorem addNew_eq_self (fields ks : List String)
    (h : ∀ k ∈ ks, k ∈ fields) : addNew fields ks = fields := by
  induction ks generalizing fields with
  | nil => rfl
  | cons k ks ih =>
      rw [addNew_cons, if_pos (h k (List.mem_cons_self k ks))]
      exact ih fields (fun x hx => h x (List.mem_cons_of_mem _ hx))

theorem dedupFS_nodup (l : List String) : (dedupFS l).Nodup :=
  addNew_nodup [] l List.nodup_nil

theorem mem_dedupFS (l : List String) (x : String) : x ∈ dedupFS l ↔ x ∈ l := by
  unfold dedupFS
  rw [mem_addNew]
  simp

/-- First-seen deduplication is an admissible set-iteration order. -/
theorem orderOk_dedupFS : orderOk dedupFS :=
  fun l => ⟨dedupFS_nodup l, fun x => mem_dedupFS l x⟩

/-!  Helper lemmas about cell lookup and row rendering. -/

theorem lookup_zip_cons (a k : String) (v : String)
    (tl : List (String × String)) :
    ((a, v) :: tl).lookup k = if k = a then some v else tl.lookup k := by
  by_cases h : k = a
  · simp [List.lookup, h]
  · have hb : (k == a) = false := by simp [h]
    simp [List.lookup, hb, h]

theorem getCell_map_self (h : List String) (g : String → String)
    (hn : h.Nodup) (k : String) (hk : k ∈ h) :
    getCell h (h.map g) k = g k := by
  induction h with
  | nil => cases hk
  | cons a tl ih =>
      rcases List.mem_cons.1 hk with rfl | hk'
      · simp [getCell, List.zip, List.zipWith, lookup_zip_cons]
      · have hka : k ≠ a := by
          rintro rfl
          exact (List.nodup_cons.1 hn).1 hk'
        simpa [getCell, List.zip, List.zipWith, lookup_zip_cons, hka] using
          ih (List.nodup_cons.1 hn).2 hk'

theorem getCell_renderDict (fields : List String) (r : Row)
    (hn : fields.Nodup) (k : String) (hk : k ∈ fields) :
    getCell fields (renderDict r fields) k = getStr r k :=
  getCell_map_self fields (getStr r) hn k hk

theorem renderRow_self (h : List String) (cells : List String)
    (hn : h.Nodup) (hlen : cells.length = h.length) :
    renderRow h cells h = cells := by
  induction h generalizing cells with
  | nil =>
      cases cells with
      | nil => rfl
      | cons c cs => simp at hlen
  | cons a tl ih =>
      cases cells with
      | nil => simp at hlen
      | cons c cs =>
          have hn' := List.nodup_cons.1 hn
          have hcs : renderRow tl cs tl = cs :=
            ih cs hn'.2 (by simpa using hlen)
          have hhead : getCell (a :: tl) (c :: cs) a = c := by
            simp [getCell, List.zip, List.zipWith, lookup_zip_cons]
          have htail : tl.map (getCell (a :: tl) (c :: cs)) =
              tl.map (getCell tl cs) := by
            refine List.map_congr_left (fun k hk => ?_)
            have hka : k ≠ a := by
              rintro rfl
              exact hn'.1 hk
            simp [getCell, List.zip, List.zipWith, lookup_zip_cons, hka]
          calc renderRow (a :: tl) (c :: cs) (a :: tl)
              = getCell (a :: tl) (c :: cs) a ::
                  tl.map (getCell (a :: tl) (c :: cs)) := rfl
            _ = c :: tl.map (getCell tl cs) := by rw [hhead, htail]
            _ = c :: cs := by rw [show tl.map (getCell tl cs) = renderRow tl cs tl from rfl, hcs]

theorem lookupS_eq_none (r : Row) (k : String) :
    lookupS r k = none ↔ k ∉ rowKeys r := by
  induction r with
  | nil => simp [lookupS, rowKeys]
  | cons p tl ih =>
      obtain ⟨k0, v⟩ := p
      by_cases h : k0 = k
      · subst h
        simp [lookupS, rowKeys]
      · simp [lookupS, h, ih, rowKeys, Ne.symm h]

theorem lookupS_of_mem (r : Row) (k v : String)
    (hnd : (rowKeys r).Nodup) (h : (k, v) ∈ r) : lookupS r k = some v := by
  induction r with
  | nil => cases h
  | cons p tl ih =>
      obtain ⟨k0, v0⟩ := p
      rcases List.mem_cons.1 h with heq | hmem
      · obtain ⟨rfl, rfl⟩ := Prod.mk.inj heq
        simp [lookupS]
      · have hk0 : k0 ≠ k := by
          rintro rfl
          have : k0 ∈ rowKeys tl := by
            simpa [rowKeys] using List.mem_map_of_mem Prod.fst hmem
          exact (List.nodup_cons.1 (by simpa [rowKeys] using hnd)).1 this
        simpa [lookupS, hk0] using
          ih (List.nodup_cons.1 (by simpa [rowKeys] using hnd)).2 hmem

theorem getStr_of_not_mem (r : Row) (k : String) (h : k ∉ rowKeys r) :
    getStr r k = "" := by
  unfold getStr
  rw [(lookupS_eq_none r k).2 h]
  rfl

theorem getStr_of_mem (r : Row) (k v : String)
    (hnd : (rowKeys r).Nodup) (h : (k, v) ∈ r) : getStr r k = v := by
  unfold getStr
  rw [lookupS_of_mem r k v hnd h]
  rfl

theorem mem_keysConcat (rows : List Row) (x : String) :
    x ∈ keysConcat rows ↔ ∃ r ∈ rows, x ∈ rowKeys r := by
  induction rows with
  | nil => simp [keysConcat]
  | cons r tl ih =>
      simp only [keysConcat, List.foldr_cons, List.mem_append] at *
      simp [ih]

theorem mem_allKeys (rows : List Row) (x : String) :
    x ∈ allKeys rows ↔ ∃ r ∈ rows, x ∈ rowKeys r := by
  unfold allKeys
  rw [mem_dedupFS, mem_keysConcat]

theorem mem_manyFields (so : List String → List String) (hso : orderOk so)
    (old : List String) (rows : List Row) (k : String) :
    k ∈ manyFields so old rows ↔ k ∈ old ∨ ∃ r ∈ rows, k ∈ rowKeys r := by
  unfold manyFields
  rw [List.mem_append, List.mem_filter]
  rw [(hso (dedupFS (old ++ keysConcat rows))).2 k, mem_dedupFS,
    List.mem_append, mem_keysConcat]
  by_cases h : k ∈ old
  · simp [h]
  · simp [h]

theorem manyFields_nodup (so : List String → List String) (hso : orderOk so)
    (old : List String) (hold : old.Nodup) (rows : List Row) :
    (manyFields so old rows).Nodup := by
  unfold manyFields
  rw [List.nodup_append]
  refine ⟨hold, ((hso _).1).filter _, ?_⟩
  intro x hx hx'
  rcases List.mem_filter.1 hx' with ⟨_, hdec⟩
  exact (of_decide_eq_true hdec) hx

theorem manyFields_no_new (so : List String → List String) (hso : orderOk so)
    (old : List String) (rows : List Row)
    (h : ∀ r ∈ rows, ∀ k ∈ rowKeys r, k ∈ old) :
    manyFields so old rows = old := by
  unfold manyFields
  have hnil : (so (dedupFS (old ++ keysConcat rows))).filter
      (fun k => decide (k ∉ old)) = [] := by
    rw [List.filter_eq_nil_iff]
    intro x hx
    have hx2 : x ∈ old ++ keysConcat rows := by
      rw [← mem_dedupFS]
      exact ((hso _).2 x).1 hx
    have hxold : x ∈ old := by
      rcases List.mem_append.1 hx2 with h1 | h2
      · exact h1
      · rcases (mem_keysConcat rows x).1 h2 with ⟨r, hr, hk⟩
        exact h r hr x hk
    simp [hxold]
  rw [hnil, List.append_nil]

/-- Re-rendering the rows of a well-formed file against its own header is
the identity. -/
theorem map_renderRow_self (f : CsvFile) (hwf : wellFormed f) :
    f.rows.map (fun c => renderRow f.header c f.header) = f.rows := by
  have h : ∀ c ∈ f.rows, renderRow f.header c f.header = c := fun c hc =>
    renderRow_self f.header c hwf.1 (hwf.2 c hc)
  calc f.rows.map (fun c => renderRow f.header c f.header)
      = f.rows.map id := List.map_congr_left (fun c hc => h c hc)
    _ = f.rows := List.map_id f.rows

/-- `sync_header_and_append` on an existing file, when every key of the
incoming row is already a header field: the mode-`"a"` fast path. -/
theorem one_no_new (f : CsvFile) (row : Row)
    (hk : ∀ k ∈ rowKeys row, k ∈ f.header) :
    sync_header_and_append row (some f) =
      (some ⟨f.header, f.rows ++ [renderDict row f.header]⟩, FileOp.appended) := by
  have h : addNew f.header (rowKeys row) = f.header :=
    addNew_eq_self f.header (rowKeys row) hk
  simp [sync_header_and_append, h]

/-- `sync_header_and_append_many` on an existing well-formed file, when
every incoming key is already a header field: still a full rewrite, but
the written content is the old header, the old rows unchanged, and the
incoming rows. -/
theorem many_no_new (so : List String → List String) (hso : orderOk so)
    (f : CsvFile) (hwf : wellFormed f) (rows : List Row)
    (hks : ∀ r ∈ rows, ∀ k ∈ rowKeys r, k ∈ f.header) :
    sync_header_and_append_many so rows (some f) =
      (some ⟨f.header, f.rows ++ rows.map (fun r => renderDict r f.header)⟩,
        FileOp.rewritten) := by
  have h : manyFields so f.header rows = f.header :=
    manyFields_no_new so hso f.header rows hks
  simp [sync_header_and_append_many, h, map_renderRow_self f hwf]

/-!  Lemmas about replaying primitive write actions. -/

theorem runActs_putLines (ls file : List (List String)) :
    runActs (ls.map WriteAct.putLine) file = file ++ ls := by
  induction ls generalizing file with
  | nil => simp [runActs]
  | cons c cs ih =>
      show runActs (cs.map WriteAct.putLine) (file ++ [c]) = file ++ c :: cs
      rw [ih]
      simp

theorem runActs_aOpen_take (ls file : List (List String)) (j : Nat) :
    runActs ((aOpen ls).take j) file = file ++ ls.take j := by
  unfold aOpen
  rw [← List.map_take, runActs_putLines]

theorem runActs_wOpen_take (ls file : List (List String)) (j : Nat) :
    runActs ((wOpen ls).take j) file = file ∨
      ∃ k, runActs ((wOpen ls).take j) file = ls.take k := by
  cases j with
  | zero => exact Or.inl rfl
  | succ n =>
      refine Or.inr ⟨n, ?_⟩
      show runActs ((ls.map WriteAct.putLine).take n) [] = ls.take n
      rw [← List.map_take, runActs_putLines, List.nil_append]

theorem append_take (l1 l2 : List (List String)) (j : Nat) :
    l1 ++ l2.take j = (l1 ++ l2).take (l1.length + j) := by
  induction l1 with
  | nil => simp
  | cons a tl ih =>
      have h : tl.length + 1 + j = (tl.length + j) + 1 := by omega
      simp only [List.cons_append, List.length_cons, h, List.take_succ_cons]
      rw [ih]

/-!  The store only ever writes well-formed files. -/

theorem length_renderRow (old cells fields : List String) :
    (renderRow old cells fields).length = fields.length := by
  simp [renderRow]

theorem length_renderDict (r : Row) (fields : List String) :
    (renderDict r fields).length = fields.length := by
  simp [renderDict]

theorem storeOp_wellFormed (op : StoreOp) (st : Option CsvFile)
    (hop : ∀ so rows, op = StoreOp.many so rows → orderOk so)
    (hrow : ∀ row, op = StoreOp.one row → (rowKeys row).Nodup)
    (hwf : wellFormedOpt st) : wellFormedOpt (applyStoreOp op st) := by
  cases op with
  | one row =>
      have hnd : (rowKeys row).Nodup := hrow row rfl
      cases st with
      | none =>
          show wellFormedOpt (sync_header_and_append row none).1
          refine ⟨hnd, ?_⟩
          intro r hr
          rcases List.mem_singleton.1 hr with rfl
          exact length_renderDict row (rowKeys row)
      | some f =>
          show wellFormedOpt (sync_header_and_append row (some f)).1
          by_cases h : addNew f.header (rowKeys row) = f.header
          · simp only [sync_header_and_append, h, if_pos rfl]
            refine ⟨hwf.1, ?_⟩
            intro r hr
            rcases List.mem_append.1 hr with hr1 | hr2
            · rw [hwf.2 r hr1]
            · rcases List.mem_singleton.1 hr2 with rfl
              rw [length_renderDict]
          · simp only [sync_header_and_append, h, if_neg h]
            refine ⟨addNew_nodup f.header (rowKeys row) hwf.1, ?_⟩
            intro r hr
            rcases List.mem_append.1 hr with hr1 | hr2
            · rcases List.mem_map.1 hr1 with ⟨c, _, rfl⟩
              exact length_renderRow f.header c _
            · rcases List.mem_singleton.1 hr2 with rfl
              exact length_renderDict row _
  | many so rows =>
      have hso : orderOk so := hop so rows rfl
      cases st with
      | none =>
          by_cases hrows : rows.isEmpty
          · simp only [applyStoreOp, sync_header_and_append_many, hrows,
              if_pos rfl]
            trivial
          · simp only [applyStoreOp, sync_header_and_append_many, hrows,
              if_neg hrows]
            refine ⟨(hso (allKeys rows)).1, ?_⟩
            intro r hr
            rcases List.mem_map.1 hr with ⟨x, _, rfl⟩
            exact length_renderDict x _
      | some f =>
          show wellFormedOpt (sync_header_and_append_many so rows (some f)).1
          simp only [sync_header_and_append_many]
          refine ⟨manyFields_nodup so hso f.header hwf.1 rows, ?_⟩
          intro r hr
          rcases List.mem_append.1 hr with hr1 | hr2
          · rcases List.mem_map.1 hr1 with ⟨c, _, rfl⟩
            exact length_renderRow f.header c _
          · rcases List.mem_map.1 hr2 with ⟨x, _, rfl⟩
            exact length_renderDict x _
  | rmLast =>
      cases st with
      | none => trivial
      | some f =>
          by_cases hr : f.rows.isEmpty
          · simp only [applyStoreOp, remove_last_row_from_csv, hr, if_pos rfl]
            exact hwf
          · simp only [applyStoreOp, remove_last_row_from_csv, hr, if_neg hr]
            refine ⟨hwf.1, ?_⟩
            intro r hrr
            rcases List.mem_map.1 hrr with ⟨c, _, rfl⟩
            exact length_renderRow f.header c _

/-- C6: header monotonicity is an invariant of every operation sequence:
after any single store call (single-row append, multi-row append, or
removeLast, from any state) the previous header is a prefix of the new one
— old columns keep their positions and no column is removed — and hence
along any sequence of calls the header after call k extends the header
after call k-1; removeLast never shrinks the header, even when the removed
row was the only one carrying data for some column. -/
theorem c6_header_monotonic :
    (∀ (op : StoreOp) (st : Option CsvFile),
        headerOf st <+: headerOf (applyStoreOp op st)) ∧
    (∀ (ops : List StoreOp) (st : Option CsvFile),
        headerOf st <+: headerOf
          (ops.foldl (fun s op => applyStoreOp op s) st)) := by
  have hstep : ∀ (op : StoreOp) (st : Option CsvFile),
      headerOf st <+: headerOf (applyStoreOp op st) := by
    intro op st
    cases op with
    | one row =>
        cases st with
        | none => exact List.nil_prefix
        | some f =>
            by_cases h : addNew f.header (rowKeys row) = f.header
            · simp [applyStoreOp, sync_header_and_append, h, headerOf]
            · simp only [applyStoreOp, sync_header_and_append, if_neg h,
                headerOf]
              exact addNew_prefix f.header (rowKeys row)
    | many so rows =>
        cases st with
        | none =>
            by_cases hrows : rows.isEmpty
            · simp [applyStoreOp, sync_header_and_append_many, hrows, headerOf]
            · simp only [applyStoreOp, sync_header_and_append_many,
                if_neg hrows, headerOf]
              exact List.nil_prefix
        | some f =>
            simp only [applyStoreOp, sync_header_and_append_many, headerOf,
              manyFields]
            exact List.prefix_append _ _
    | rmLast =>
        cases st with
        | none => exact List.prefix_rfl
        | some f =>
            by_cases hr : f.rows.isEmpty
            · simp [applyStoreOp, remove_last_row_from_csv, hr, headerOf]
            · simp [applyStoreOp, remove_last_row_from_csv, hr, headerOf]
  refine ⟨hstep, ?_⟩
  intro ops
  induction ops with
  | nil => intro st; exact List.prefix_rfl
  | cons op ops ih =>
      intro st
      exact (hstep op st).trans (ih (applyStoreOp op st))

/-- C7: flattening the structured result with summary `{a: "1"}` and
transactions `[{b: "2"}, {b: "3"}]` yields exactly the two rows
`{summary_a: "1", b: "2"}` and `{summary_a: "1", b: "3"}`; with an empty
transaction list it yields exactly the one row `{summary_a: "1"}`. -/
theorem c7_flatten_examples :
    flatten (JObj.cons "a" (JVal.jstr "1") JObj.nil)
        [JObj.cons "b" (JVal.jstr "2") JObj.nil,
          JObj.cons "b" (JVal.jstr "3") JObj.nil] =
      [[("summary_a", "1"), ("b", "2")], [("summary_a", "1"), ("b", "3")]] ∧
    flatten (JObj.cons "a" (JVal.jstr "1") JObj.nil) [] =
      [[("summary_a", "1")]] := by
  decide

/-- C10: appending an empty row sequence to an existing well-formed table
is an identity on the observable table: the file is rewritten in place
(mode `"w"`), but with exactly the same header and rows. -/
theorem c10_empty_append_identity (so : List String → List String)
    (hso : orderOk so) (f : CsvFile) (hwf : wellFormed f) :
    sync_header_and_append_many so [] (some f) =
      (some f, FileOp.rewritten) := by
  have h := many_no_new so hso f hwf [] (by intro r hr; cases hr)
  simpa using h

/-- Witness for C10 at a concrete well-formed one-row table. -/
theorem c10_witness :
    orderOk dedupFS ∧ wellFormed ⟨["a"], [["1"]]⟩ ∧
    sync_header_and_append_many dedupFS [] (some ⟨["a"], [["1"]]⟩) =
      (some ⟨["a"], [["1"]]⟩, FileOp.rewritten) :=
  ⟨orderOk_dedupFS, by decide,
    c10_empty_append_identity dedupFS orderOk_dedupFS ⟨["a"], [["1"]]⟩
      (by decide)⟩

/-- C1 (amended): when every incoming key is already a header field, the
single-row append takes the mode-`"a"` fast path — it appends only the
rendered row, leaves every existing row untouched and keeps the header —
while the multi-row append keeps the header and every existing row's
content and appends the incoming rows, but does so by a full in-place
rewrite of the file rather than an append. -/
theorem c1_no_new_columns (f : CsvFile) (hwf : wellFormed f) (row : Row)
    (hk : ∀ k ∈ rowKeys row, k ∈ f.header)
    (so : List String → List String) (hso : orderOk so) (rows : List Row)
    (hks : ∀ r ∈ rows, ∀ k ∈ rowKeys r, k ∈ f.header) :
    sync_header_and_append row (some f) =
      (some ⟨f.header, f.rows ++ [renderDict row f.header]⟩,
        FileOp.appended) ∧
    sync_header_and_append_many so rows (some f) =
      (some ⟨f.header, f.rows ++ rows.map (fun r => renderDict r f.header)⟩,
        FileOp.rewritten) :=
  ⟨one_no_new f row hk, many_no_new so hso f hwf rows hks⟩

/-- Witness for C1: a one-column table, a row with only the existing key. -/
theorem c1_witness :
    wellFormed ⟨["a"], [["1"]]⟩ ∧ orderOk dedupFS ∧
    sync_header_and_append [("a", "2")] (some ⟨["a"], [["1"]]⟩) =
      (some ⟨["a"], [["1"], ["2"]]⟩, FileOp.appended) ∧
    sync_header_and_append_many dedupFS [[("a", "3")]]
        (some ⟨["a"], [["1"]]⟩) =
      (some ⟨["a"], [["1"], ["3"]]⟩, FileOp.rewritten) := by
  have h := c1_no_new_columns ⟨["a"], [["1"]]⟩ (by decide) [("a", "2")]
    (by decide) dedupFS orderOk_dedupFS [[("a", "3")]] (by decide)
  refine ⟨by decide, orderOk_dedupFS, ?_, ?_⟩
  · rw [h.1]; decide
  · rw [h.2]; decide

/-- Counterexample for C1 as stated: a multi-row append whose row keys are
all already header fields still opens the file in mode `"w"` and performs
a full rewrite (`sync_header_and_append_many` has no append-only fast
path), contradicting "performs no full rewrite ... holds for
sync_header_and_append_many". -/
theorem c1_counterexample :
    rowKeys [("a", "2")] = ["a"] ∧
    (sync_header_and_append_many dedupFS [[("a", "2")]]
        (some ⟨["a"], [["1"]]⟩)).2 = FileOp.rewritten ∧
    FileOp.rewritten ≠ FileOp.appended := by
  decide

/-- C5: removeLast returns false exactly when no file exists or the table
has zero data rows, changing nothing in that case; otherwise it rewrites
the table with the identical header and all rows but the last and returns
true, so a subsequent load yields one fewer row under the same header. -/
theorem c5_remove_last (st : Option CsvFile) (hwf : wellFormedOpt st) :
    ((remove_last_row_from_csv st).2 = false ↔
      st = none ∨ ∃ f : CsvFile, st = some f ∧ f.rows = []) ∧
    ((remove_last_row_from_csv st).2 = false →
      (remove_last_row_from_csv st).1 = st) ∧
    (∀ f : CsvFile, st = some f → f.rows ≠ [] →
      remove_last_row_from_csv st =
        (some ⟨f.header, f.rows.dropLast⟩, true) ∧
      load_dataframe (remove_last_row_from_csv st).1 =
        Except.ok ⟨f.header, f.rows.dropLast⟩ ∧
      (f.rows.dropLast).length + 1 = f.rows.length) := by
  cases st with
  | none =>
      refine ⟨?_, fun _ => rfl, ?_⟩
      · simp [remove_last_row_from_csv]
      · intro f hf
        exact Option.noConfusion hf
  | some f =>
      by_cases hr : f.rows.isEmpty
      · have hre : f.rows = [] := by simpa using hr
        have hrm : remove_last_row_from_csv (some f) = (some f, false) := by
          simp [remove_last_row_from_csv, hr]
        refine ⟨?_, ?_, ?_⟩
        · rw [hrm]
          constructor
          · intro _
            exact Or.inr ⟨f, rfl, hre⟩
          · intro _
            rfl
        · intro _
          rw [hrm]
        · intro f2 hf2 hne
          injection hf2 with h2
          subst h2
          exact absurd hre hne
      · have hne : f.rows ≠ [] := by simpa using hr
        have hdrop : (f.rows.dropLast).map
            (fun c => renderRow f.header c f.header) = f.rows.dropLast := by
          refine (List.map_congr_left fun c hc => ?_).trans (List.map_id _)
          exact renderRow_self f.header c hwf.1
            (hwf.2 c (List.mem_of_mem_dropLast hc))
        have hrm : remove_last_row_from_csv (some f) =
            (some ⟨f.header, f.rows.dropLast⟩, true) := by
          simp [remove_last_row_from_csv, hr, hdrop]
        have hlen : (f.rows.dropLast).length + 1 = f.rows.length := by
          have h1 : f.rows.length ≠ 0 := by
            simpa [List.length_eq_zero] using hne
          rw [List.length_dropLast]
          omega
        refine ⟨?_, ?_, ?_⟩
        · rw [hrm]
          constructor
          · intro h
            exact Bool.noConfusion h
          · rintro (h | ⟨f2, hf2, hre2⟩)
            · exact Option.noConfusion h
            · injection hf2 with h2
              subst h2
              exact absurd hre2 hne
        · intro h
          rw [hrm] at h
          exact Bool.noConfusion h
        · intro f2 hf2 _
          injection hf2 with h2
          subst h2
          exact ⟨hrm, by rw [hrm]; rfl, hlen⟩

/-- Witness for C5 at a concrete one-row table. -/
theorem c5_witness :
    wellFormedOpt (some ⟨["a"], [["1"]]⟩) ∧
    remove_last_row_from_csv (some ⟨["a"], [["1"]]⟩) =
      (some ⟨["a"], []⟩, true) := by
  have h := c5_remove_last (some ⟨["a"], [["1"]]⟩) (by decide)
  have h3 := (h.2.2 ⟨["a"], [["1"]]⟩ rfl (by decide)).1
  exact ⟨by decide, by rw [h3]; rfl⟩

/-- C4 (amended): with no table on disk, appending an empty row sequence
is a no-op that creates no file; appending a non-empty sequence creates
the table whose header is a duplicate-free list containing exactly the
keys occurring across the rows — in the iteration order of the Python set
they are collected in, which need not be first-seen order — and writes
each row with fields missing from it rendered as the empty string. -/
theorem c4_create (so : List String → List String) (hso : orderOk so)
    (rows : List Row) :
    sync_header_and_append_many so [] none = (none, FileOp.noop) ∧
    (rows ≠ [] →
      ∃ t : CsvFile,
        sync_header_and_append_many so rows none = (some t, FileOp.created) ∧
        t.header.Nodup ∧
        (∀ k : String, k ∈ t.header ↔ ∃ r ∈ rows, k ∈ rowKeys r) ∧
        t.rows = rows.map (fun r => renderDict r t.header) ∧
        (∀ r ∈ rows, ∀ k ∈ t.header, k ∉ rowKeys r →
          getCell t.header (renderDict r t.header) k = "")) := by
  constructor
  · rfl
  · intro hne
    have hrows : rows.isEmpty = false := by
      cases rows with
      | nil => exact absurd rfl hne
      | cons a l => rfl
    refine ⟨⟨so (allKeys rows),
      rows.map (fun r => renderDict r (so (allKeys rows)))⟩, ?_, ?_, ?_, rfl, ?_⟩
    · simp [sync_header_and_append_many, hrows]
    · exact (hso (allKeys rows)).1
    · intro k
      rw [show (⟨so (allKeys rows),
          rows.map (fun r => renderDict r (so (allKeys rows)))⟩ : CsvFile).header
          = so (allKeys rows) from rfl]
      rw [(hso (allKeys rows)).2 k, mem_allKeys]
    · intro r hr k hk hknot
      rw [getCell_renderDict _ r (hso (allKeys rows)).1 k hk]
      exact getStr_of_not_mem r k hknot

/-- Witness for C4 (amended) at a concrete row list. -/
theorem c4_witness :
    orderOk dedupFS ∧ ([[("a", "1")]] : List Row) ≠ [] ∧
    sync_header_and_append_many dedupFS [] none = (none, FileOp.noop) ∧
    sync_header_and_append_many dedupFS [[("a", "1")]] none =
      (some ⟨["a"], [["1"]]⟩, FileOp.created) := by
  have h := c4_create dedupFS orderOk_dedupFS [[("a", "1")]]
  exact ⟨orderOk_dedupFS, by decide, h.1, by decide⟩

/-- A set-iteration order that reverses first-seen order; for a
two-element set this is the order produced by CPython under a hash seed
on which the two keys land in the opposite bucket order. -/
def soRev (l : List String) : List String := (dedupFS l).reverse

theorem orderOk_soRev : orderOk soRev := by
  intro l
  refine ⟨?_, ?_⟩
  · simpa [soRev] using dedupFS_nodup l
  · intro x
    simp [soRev, mem_dedupFS]

/-- Counterexample for C4 as stated: the no-file branch of
`sync_header_and_append_many` builds the header with `list({k for r in
rows for k in r.keys()})`, whose order is the set's hash-dependent
iteration order; under the admissible order `soRev` the created header
for the single row `{a: "1", b: "2"}` is `["b", "a"]`, not the first-seen
order `["a", "b"]` the claim requires. -/
theorem c4_counterexample :
    orderOk soRev ∧
    (sync_header_and_append_many soRev [[("a", "1"), ("b", "2")]] none).1 =
      some ⟨["b", "a"], [["2", "1"]]⟩ ∧
    (["b", "a"] : List String) ≠ ["a", "b"] :=
  ⟨orderOk_soRev, by decide, by decide⟩

/-- `sync_header_and_append` on an existing file always ends by writing
the incoming row rendered against the reconciled header, which is the
header-union of the old header and the row's keys. -/
theorem one_appends_rendered (f : CsvFile) (row : Row) :
    ∃ t : CsvFile, (sync_header_and_append row (some f)).1 = some t ∧
      t.header = addNew f.header (rowKeys row) ∧
      renderDict row t.header ∈ t.rows := by
  by_cases h : addNew f.header (rowKeys row) = f.header
  · refine ⟨⟨f.header, f.rows ++ [renderDict row f.header]⟩, ?_, h.symm, ?_⟩
    · simp [sync_header_and_append, h]
    · simp
  · refine ⟨⟨addNew f.header (rowKeys row),
      f.rows.map (fun c => renderRow f.header c (addNew f.header (rowKeys row))) ++
        [renderDict row (addNew f.header (rowKeys row))]⟩, ?_, rfl, ?_⟩
    · simp [sync_header_and_append, h]
    · simp

/-- C3 (amended): `load_dataframe` raises `FileNotFoundError` when no file
exists at the path (it does not return an empty table); for an existing
file it returns the stored header and rows verbatim, and after an append
every header field absent from the appended row's keys is exposed by a
subsequent load as the empty string. -/
theorem c3_loader (f : CsvFile) (hwf : wellFormed f) (row : Row) :
    load_dataframe none = Except.error "FileNotFoundError" ∧
    load_dataframe (some f) = Except.ok f ∧
    (∀ t : CsvFile,
      load_dataframe (sync_header_and_append row (some f)).1 = Except.ok t →
      renderDict row t.header ∈ t.rows ∧
      ∀ k ∈ t.header, k ∉ rowKeys row →
        getCell t.header (renderDict row t.header) k = "") := by
  refine ⟨rfl, rfl, ?_⟩
  intro t ht
  obtain ⟨t0, h0, hhd, hmem⟩ := one_appends_rendered f row
  rw [h0] at ht
  have heq : t0 = t := by simpa [load_dataframe] using ht
  subst heq
  refine ⟨hmem, ?_⟩
  intro k hk hknot
  have hnd : t0.header.Nodup := by
    rw [hhd]
    exact addNew_nodup f.header (rowKeys row) hwf.1
  rw [getCell_renderDict t0.header row hnd k hk]
  exact getStr_of_not_mem row k hknot

/-- Counterexample for C3 as stated: on a missing file `load_dataframe`
raises `FileNotFoundError` instead of returning the empty table. -/
theorem c3_counterexample :
    load_dataframe none = Except.error "FileNotFoundError" ∧
    (Except.error "FileNotFoundError" : Except String CsvFile) ≠
      Except.ok ⟨[], []⟩ := by
  refine ⟨rfl, ?_⟩
  intro h
  exact Except.noConfusion h

/-- Witness for C3 (amended) at a concrete table and row. -/
theorem c3_witness :
    wellFormed ⟨["a"], [["1"]]⟩ ∧
    load_dataframe none = Except.error "FileNotFoundError" := by
  have h := c3_loader ⟨["a"], [["1"]]⟩ (by decide) [("b", "2")]
  exact ⟨by decide, h.1⟩

/-- C9 (amended): each stringification is a deterministic function of the
value; the normaliser's (`_run_ollama_extraction`) implements exactly the
spec's stringify — empty string for null, `json.dumps` text for mappings
and sequences, `str` otherwise — while the flattener's
(`_run_save_worker`) agrees with it on null and scalar values but renders
mappings and sequences with Python `str`/`repr`, not JSON text. -/
theorem c9_stringify_branches :
    (∀ v : JVal, strNorm v = specStringify v) ∧
    strFlat JVal.jnull = "" ∧
    (∀ s : String, strFlat (JVal.jstr s) = strNorm (JVal.jstr s)) ∧
    (∀ b : Bool, strFlat (JVal.jbool b) = strNorm (JVal.jbool b)) ∧
    (∀ n : Int, strFlat (JVal.jnum n) = strNorm (JVal.jnum n)) ∧
    (∀ fs : JObj, strFlat (JVal.jobj fs) = pyRepr (JVal.jobj fs)) ∧
    (∀ xs : JArr, strFlat (JVal.jarr xs) = pyRepr (JVal.jarr xs)) := by
  refine ⟨?_, rfl, fun s => rfl, fun b => rfl, fun n => rfl,
    fun fs => rfl, fun xs => rfl⟩
  intro v
  cases v <;> rfl

/-- Counterexample for C9 as stated: on the mapping `{x: "1"}` the
flattener's stringification produces the Python repr text while the
normaliser's produces the JSON text, so the branches do not share one
stringification function and the flattener's is not canonical JSON. -/
theorem c9_counterexample :
    strFlat (JVal.jobj (JObj.cons "x" (JVal.jstr "1") JObj.nil)) =
      "\x7b\x27x\x27: \x271\x27\x7d" ∧
    strNorm (JVal.jobj (JObj.cons "x" (JVal.jstr "1") JObj.nil)) =
      "\x7b\"x\": \"1\"\x7d" ∧
    "\x7b\x27x\x27: \x271\x27\x7d" ≠ "\x7b\"x\": \"1\"\x7d" := by
  decide

/-- C2 (amended): none of the store's writes is atomic — every one writes
in place through a single `open` in mode `"a"` or `"w"` — and the
guarantee that holds is only this: a call interrupted after any prefix of
its primitive file actions leaves on disk either the old file intact or a
prefix of the intended new content.  In particular an interrupted rewrite
can leave a bare header, or a header with only part of the rows. -/
theorem c2_interrupted_writes (st : Option CsvFile) (row : Row)
    (so : List String → List String) (rows : List Row) (j : Nat) :
    (runActs ((writeActsOne row st).take j) (linesOf st) = linesOf st ∨
      ∃ k, runActs ((writeActsOne row st).take j) (linesOf st) =
        (linesOf (sync_header_and_append row st).1).take k) ∧
    (runActs ((writeActsMany so rows st).take j) (linesOf st) = linesOf st ∨
      ∃ k, runActs ((writeActsMany so rows st).take j) (linesOf st) =
        (linesOf (sync_header_and_append_many so rows st).1).take k) ∧
    (runActs ((writeActsRm st).take j) (linesOf st) = linesOf st ∨
      ∃ k, runActs ((writeActsRm st).take j) (linesOf st) =
        (linesOf (remove_last_row_from_csv st).1).take k) := by
  refine ⟨?_, ?_, ?_⟩
  · cases st with
    | none =>
        refine Or.inr ⟨j, ?_⟩
        show runActs ((aOpen [rowKeys row, renderDict row (rowKeys row)]).take j)
            [] = _
        rw [runActs_aOpen_take, List.nil_append]
        rfl
    | some f =>
        by_cases h : addNew f.header (rowKeys row) = f.header
        · refine Or.inr ⟨(linesOf (some f)).length + j, ?_⟩
          have hact : writeActsOne row (some f) =
              aOpen [renderDict row f.header] := by
            simp [writeActsOne, h]
          have hres : linesOf (sync_header_and_append row (some f)).1 =
              linesOf (some f) ++ [renderDict row f.header] := by
            simp [sync_header_and_append, h, linesOf]
          rw [hact, runActs_aOpen_take, hres]
          exact append_take _ _ j
        · have hact : writeActsOne row (some f) =
              wOpen (addNew f.header (rowKeys row) ::
                (f.rows.map (fun c =>
                    renderRow f.header c (addNew f.header (rowKeys row))) ++
                  [renderDict row (addNew f.header (rowKeys row))])) := by
            simp [writeActsOne, h]
          have hres : linesOf (sync_header_and_append row (some f)).1 =
              addNew f.header (rowKeys row) ::
                (f.rows.map (fun c =>
                    renderRow f.header c (addNew f.header (rowKeys row))) ++
                  [renderDict row (addNew f.header (rowKeys row))]) := by
            simp [sync_header_and_append, h, linesOf]
          rw [hact, hres]
          exact runActs_wOpen_take _ _ j
  · cases st with
    | none =>
        by_cases hrows : rows.isEmpty
        · refine Or.inl ?_
          simp [writeActsMany, hrows, runActs]
        · have hact : writeActsMany so rows none =
              wOpen (so (allKeys rows) ::
                rows.map (fun r => renderDict r (so (allKeys rows)))) := by
            simp [writeActsMany, hrows]
          have hres : linesOf (sync_header_and_append_many so rows none).1 =
              so (allKeys rows) ::
                rows.map (fun r => renderDict r (so (allKeys rows))) := by
            simp [sync_header_and_append_many, hrows, linesOf]
          rw [hact, hres]
          exact runActs_wOpen_take _ _ j
    | some f =>
        have hact : writeActsMany so rows (some f) =
            wOpen (manyFields so f.header rows ::
              (f.rows.map (fun c =>
                  renderRow f.header c (manyFields so f.header rows)) ++
                rows.map (fun r =>
                  renderDict r (manyFields so f.header rows)))) := rfl
        have hres : linesOf (sync_header_and_append_many so rows (some f)).1 =
            manyFields so f.header rows ::
              (f.rows.map (fun c =>
                  renderRow f.header c (manyFields so f.header rows)) ++
                rows.map (fun r =>
                  renderDict r (manyFields so f.header rows))) := rfl
        rw [hact, hres]
        exact runActs_wOpen_take _ _ j
  · cases st with
    | none =>
        refine Or.inl ?_
        simp [writeActsRm, runActs]
    | some f =>
        by_cases hr : f.rows.isEmpty
        · refine Or.inl ?_
          simp [writeActsRm, hr, runActs]
        · have hact : writeActsRm (some f) =
              wOpen (f.header ::
                (f.rows.dropLast).map
                  (fun c => renderRow f.header c f.header)) := by
            simp [writeActsRm, hr]
          have hres : linesOf (remove_last_row_from_csv (some f)).1 =
              f.header ::
                (f.rows.dropLast).map
                  (fun c => renderRow f.header c f.header) := by
            simp [remove_last_row_from_csv, hr, linesOf]
          rw [hact, hres]
          exact runActs_wOpen_take _ _ j

/-- Counterexample for C2 as stated: rewriting the one-row table
`header [a], row [1]` to absorb the new-column row `{b: "2"}` and failing
after the second primitive action (truncate, then the header line) leaves
`[["a", "b"]]` on disk — a header with no data rows — which is neither the
old file nor the fully written new file. -/
theorem c2_counterexample :
    runActs ((writeActsOne [("b", "2")] (some ⟨["a"], [["1"]]⟩)).take 2)
        (linesOf (some ⟨["a"], [["1"]]⟩)) = [["a", "b"]] ∧
    ([["a", "b"]] : List (List String)) ≠ linesOf (some ⟨["a"], [["1"]]⟩) ∧
    ([["a", "b"]] : List (List String)) ≠
      linesOf (sync_header_and_append [("b", "2")] (some ⟨["a"], [["1"]]⟩)).1 := by
  decide

/-- C8: round-trip — loading after a multi-row append succeeds and, for
each appended row, the table contains its rendition under the reconciled
header, whose cells carry the row's own value at every key of the row and
the empty string at every header column the row lacks. -/
theorem c8_round_trip (so : List String → List String) (hso : orderOk so)
    (st : Option CsvFile) (hwf : wellFormedOpt st) (rows : List Row)
    (r : Row) (hr : r ∈ rows) (hnd : (rowKeys r).Nodup) :
    ∃ t : CsvFile,
      load_dataframe (sync_header_and_append_many so rows st).1 =
        Except.ok t ∧
      renderDict r t.header ∈ t.rows ∧
      (∀ k v : String, (k, v) ∈ r →
        getCell t.header (renderDict r t.header) k = v) ∧
      (∀ k ∈ t.header, k ∉ rowKeys r →
        getCell t.header (renderDict r t.header) k = "") := by
  have hrows : rows.isEmpty = false := by
    cases rows with
    | nil => cases hr
    | cons a l => rfl
  cases st with
  | none =>
      refine ⟨⟨so (allKeys rows),
        rows.map (fun x => renderDict x (so (allKeys rows)))⟩, ?_, ?_, ?_, ?_⟩
      · simp [sync_header_and_append_many, hrows, load_dataframe]
      · exact List.mem_map_of_mem _ hr
      · intro k v hkv
        have hk : k ∈ rowKeys r := by
          simpa [rowKeys] using List.mem_map_of_mem Prod.fst hkv
        have hkh : k ∈ so (allKeys rows) :=
          ((hso (allKeys rows)).2 k).2 ((mem_allKeys rows k).2 ⟨r, hr, hk⟩)
        rw [getCell_renderDict _ r (hso (allKeys rows)).1 k hkh]
        exact getStr_of_mem r k v hnd hkv
      · intro k hk hknot
        rw [getCell_renderDict _ r (hso (allKeys rows)).1 k hk]
        exact getStr_of_not_mem r k hknot
  | some f =>
      have hndh : (manyFields so f.header rows).Nodup :=
        manyFields_nodup so hso f.header hwf.1 rows
      refine ⟨⟨manyFields so f.header rows,
        f.rows.map (fun c => renderRow f.header c (manyFields so f.header rows)) ++
          rows.map (fun x => renderDict x (manyFields so f.header rows))⟩,
        ?_, ?_, ?_, ?_⟩
      · simp [sync_header_and_append_many, load_dataframe]
      · exact List.mem_append_right _ (List.mem_map_of_mem _ hr)
      · intro k v hkv
        have hk : k ∈ rowKeys r := by
          simpa [rowKeys] using List.mem_map_of_mem Prod.fst hkv
        have hkh : k ∈ manyFields so f.header rows :=
          (mem_manyFields so hso f.header rows k).2 (Or.inr ⟨r, hr, hk⟩)
        rw [getCell_renderDict _ r hndh k hkh]
        exact getStr_of_mem r k v hnd hkv
      · intro k hk hknot
        rw [getCell_renderDict _ r hndh k hk]
        exact getStr_of_not_mem r k hknot

/-- Witness for C8: append `{b: "2"}` to the table `header [a], row [1]`
and read the resulting table back. -/
theorem c8_witness :
    orderOk dedupFS ∧ wellFormedOpt (some ⟨["a"], [["1"]]⟩) ∧
    (∃ t : CsvFile,
      load_dataframe (sync_header_and_append_many dedupFS [[("b", "2")]]
          (some ⟨["a"], [["1"]]⟩)).1 = Except.ok t ∧
      renderDict [("b", "2")] t.header ∈ t.rows ∧
      (∀ k v : String, (k, v) ∈ ([("b", "2")] : Row) →
        getCell t.header (renderDict [("b", "2")] t.header) k = v) ∧
      (∀ k ∈ t.header, k ∉ rowKeys [("b", "2")] →
        getCell t.header (renderDict [("b", "2")] t.header) k = "")) :=
  ⟨orderOk_dedupFS, by decide,
    c8_round_trip dedupFS orderOk_dedupFS (some ⟨["a"], [["1"]]⟩) (by decide)
      [[("b", "2")]] [("b", "2")] (by decide) (by decide)⟩
